import Mathlib

/-!
Shallow embedding of the metrics_pipeline repository's core pipeline layer:

* `SimpleCache`   — `src/metrics_pipeline/utils/performance.py`, class `SimpleCache`
* `with_retry`    — `src/metrics_pipeline/utils/performance.py`, function `with_retry`
* `BatchProcessor`— `src/metrics_pipeline/utils/performance.py`, class `BatchProcessor`
* `MetricsPipeline.*` — `src/metrics_pipeline/core/pipeline/processor.py`
* `HTTPIngestionAdapter.validate` — `src/metrics_pipeline/adapters/ingestion/http.py`

Wall-clock instants (`time.time()`) are modelled as integers passed explicitly at
each call; Python dictionaries with a fixed key set are modelled as structures,
and the three distinct result-dictionary shapes produced by the batch processor
(`{}`, the flush function's own result, and the synthetic error dictionary
`{"success_count": 0, "failure_count": n, "error": e}`) are modelled as the
three constructors of `FlushResult`.  Exceptions are modelled with `Except`.
-/

/-- Validation-result dictionary `{"valid": ..., "errors": ...}` as produced by
`HTTPIngestionAdapter.validate` and consumed by the pipeline (`errors` is `None`
exactly when the validator found no errors). -/
structure ValidationResult where
  valid : Bool
  errors : Option (List String)
deriving Repr, DecidableEq

/-- One cache entry `{"value": ..., "expiry": ...}` of `SimpleCache`. -/
structure CacheEntry (v : Type) where
  value : v
  expiry : Int
deriving Repr, DecidableEq

/-- `SimpleCache` state: the `cache` dict is modelled as an insertion-ordered
association list with unique keys (Python dicts preserve insertion order, and
`min` over the keys returns the first key attaining the minimum). -/
structure SimpleCache (v : Type) where
  ttl : Int
  max_size : Nat
  cache : List (String × CacheEntry v)
deriving Repr, DecidableEq

/-- Key membership in the association list (`key in self.cache`). -/
def containsKey {v : Type} : List (String × CacheEntry v) → String → Bool
  | [], _ => false
  | (k, _) :: rest, key => if k = key then true else containsKey rest key

/-- Lookup (`self.cache[key]`), returning the entry when present. -/
def lookupKey {v : Type} : List (String × CacheEntry v) → String → Option (CacheEntry v)
  | [], _ => none
  | (k, e) :: rest, key => if k = key then some e else lookupKey rest key

/-- Deletion (`del self.cache[key]`): removes the first binding of `key`. -/
def eraseKey {v : Type} : List (String × CacheEntry v) → String → List (String × CacheEntry v)
  | [], _ => []
  | (k, e) :: rest, key => if k = key then rest else (k, e) :: eraseKey rest key

/-- Dict assignment (`self.cache[key] = entry`): overwrite in place when the key
exists (preserving its position), append otherwise. -/
def setKey {v : Type} : List (String × CacheEntry v) → String → CacheEntry v →
    List (String × CacheEntry v)
  | [], key, e => [(key, e)]
  | (k, e0) :: rest, key, e =>
      if k = key then (key, e) :: rest else (k, e0) :: setKey rest key e

/-- `min(self.cache.keys(), key=lambda k: self.cache[k]["expiry"])`: the first
key (in insertion order) attaining the minimal expiry, with that expiry.
Returns `none` on an empty dict (where Python `min` would raise). -/
def minExpiryEntry {v : Type} : List (String × CacheEntry v) → Option (String × Int)
  | [] => none
  | (k, e) :: rest =>
      match minExpiryEntry rest with
      | none => some (k, e.expiry)
      | some (k0, x0) => if e.expiry ≤ x0 then some (k, e.expiry) else some (k0, x0)

/-- `SimpleCache.get`: absent keys and expired entries (strictly past `expiry`)
yield `none`; an expired entry is deleted on access (lazy expiry). -/
def SimpleCache.get {v : Type} (c : SimpleCache v) (key : String) (now : Int) :
    Option v × SimpleCache v :=
  match lookupKey c.cache key with
  | none => (none, c)
  | some e =>
      if e.expiry < now then (none, { c with cache := eraseKey c.cache key })
      else (some e.value, c)

/-- `SimpleCache.set`: when the cache is at (or beyond) capacity and the key is
new, first delete the entry with the earliest expiry, then bind
`key ↦ {value, expiry := now + ttl}` (the per-call `ttl` overriding the default
when given). -/
def SimpleCache.set {v : Type} (c : SimpleCache v) (key : String) (value : v)
    (ttl : Option Int) (now : Int) : SimpleCache v :=
  let c1 :=
    if c.max_size ≤ c.cache.length ∧ containsKey c.cache key = false then
      match minExpiryEntry c.cache with
      | some (oldestKey, _) => { c with cache := eraseKey c.cache oldestKey }
      | none => c
    else c
  { c1 with cache := setKey c1.cache key ⟨value, now + ttl.getD c.ttl⟩ }

/-- `SimpleCache.delete`. -/
def SimpleCache.delete {v : Type} (c : SimpleCache v) (key : String) : SimpleCache v :=
  if containsKey c.cache key then { c with cache := eraseKey c.cache key } else c

/-- `SimpleCache.cleanup`: remove every entry whose expiry lies strictly in the
past and return how many were removed. -/
def SimpleCache.cleanup {v : Type} (c : SimpleCache v) (now : Int) :
    Nat × SimpleCache v :=
  let expired := c.cache.filter (fun p => p.2.expiry < now)
  (expired.length, { c with cache := c.cache.filter (fun p => ¬ p.2.expiry < now) })

/-- Outcome of `with_retry`: the final result (value or propagated exception),
the number of invocations of the wrapped operation, and the sequence of backoff
waits performed (in order). -/
structure RetryOutcome (ε α : Type) where
  result : Except ε α
  invocations : Nat
  waits : List ℚ
deriving Repr

/-- Core loop of `with_retry`.  `attempts i` is the behaviour of the wrapped
async operation on its `i`-th invocation; `retryable` models membership of a
raised exception in the `exceptions` tuple (a non-qualifying exception
propagates immediately); `d` is the current delay, multiplied by `backoff`
after each qualifying failure that leaves attempts remaining; the second `Nat`
argument is the number of attempts remaining after the current one. -/
def withRetryGo {ε α : Type} (attempts : Nat → Except ε α) (retryable : ε → Bool)
    (backoff : ℚ) : ℚ → Nat → Nat → RetryOutcome ε α
  | _, i, 0 => ⟨attempts i, 1, []⟩
  | d, i, n + 1 =>
      match attempts i with
      | .ok a => ⟨.ok a, 1, []⟩
      | .error e =>
          if retryable e then
            let r := withRetryGo attempts retryable backoff (d * backoff) (i + 1) n
            ⟨r.result, r.invocations + 1, d :: r.waits⟩
          else ⟨.error e, 1, []⟩

/-- `with_retry(func, retries=..., delay=..., backoff=..., exceptions=...)`:
makes up to `retries + 1` attempts, waiting between attempts with exponential
backoff, and after exhaustion propagates the exception of the last attempt
unchanged. -/
def with_retry {ε α : Type} (attempts : Nat → Except ε α) (retryable : ε → Bool)
    (retries : Nat) (delay backoff : ℚ) : RetryOutcome ε α :=
  withRetryGo attempts retryable backoff delay 0 retries

/-- `BatchProcessor` state relevant to `add_item`/`_process_batch`: the
configuration, the pending `items` list, and `last_process_time` (the
`running`/`task` fields belong to the background-timer lifecycle, which is not
needed here). -/
structure BatchProcessor (α : Type) where
  batch_size : Nat
  batch_timeout : Int
  items : List α
  last_process_time : Int
deriving Repr, DecidableEq

/-- The three distinct dictionary shapes an accumulator flush can return:
`{}` (`empty`), the injected function's own result (`ok`), and the synthetic
error dictionary `{"success_count": s, "failure_count": n, "error": e}`
(`errorResult`, produced with `s = 0`). -/
inductive FlushResult (γ : Type) where
  | empty : FlushResult γ
  | ok (r : γ) : FlushResult γ
  | errorResult (success_count failure_count : Nat) (error : String) : FlushResult γ
deriving Repr, DecidableEq

/-- `BatchProcessor._process_batch`: return `{}` if nothing is pending,
otherwise capture the pending items, clear the list, stamp
`last_process_time := now`, and run the injected function; an exception from it
is converted into the synthetic error outcome (the captured items are not
re-queued). -/
def BatchProcessor.process_batch {α γ : Type} (f : List α → Except String γ)
    (s : BatchProcessor α) (now : Int) : FlushResult γ × BatchProcessor α :=
  if s.items.isEmpty then (.empty, s)
  else
    let itemsToProcess := s.items
    let s1 := { s with items := [], last_process_time := now }
    match f itemsToProcess with
    | .ok r => (.ok r, s1)
    | .error e => (.errorResult 0 itemsToProcess.length e, s1)

/-- `BatchProcessor.add_item`: append the item; flush when the pending count
reaches `batch_size`, or else when `batch_timeout` has elapsed since the last
flush (the pending list is necessarily non-empty after the append, mirroring
the `and self.items` guard); otherwise return `{}` with the item queued. -/
def BatchProcessor.add_item {α γ : Type} (f : List α → Except String γ)
    (s : BatchProcessor α) (now : Int) (item : α) : FlushResult γ × BatchProcessor α :=
  let s1 := { s with items := s.items ++ [item] }
  if s1.batch_size ≤ s1.items.length then BatchProcessor.process_batch f s1 now
  else if s1.batch_timeout ≤ now - s1.last_process_time ∧ s1.items.isEmpty = false then
    BatchProcessor.process_batch f s1 now
  else (.empty, s1)

/-- Batch-result dictionary `{"success_count": ..., "failure_count": ...,
"failures": [...]}` (the shape of `MetricsBatchResult` in
`core/models/metrics.py` and of the result dict built by
`MetricsPipeline._process_metrics_batch`); `β` is the type of one failure
entry. -/
structure MetricsBatchResult (β : Type) where
  success_count : Nat
  failure_count : Nat
  failures : List β
deriving Repr, DecidableEq

/-- The `"data"` field of a failure entry: either the raw input dictionary
(validation/parse failures) or a parsed record converted back with
`metrics.dict()` (batch-storage failures). -/
inductive FailData (α ρ : Type) where
  | raw (a : α) : FailData α ρ
  | record (r : ρ) : FailData α ρ
deriving Repr, DecidableEq

/-- One failure entry `{"data": ..., "errors": ...}` appended by the pipeline
(`errors` carries the validator's `errors` field, which may be `None`). -/
structure FailureEntry (α ρ : Type) where
  data : FailData α ρ
  errors : Option (List String)
deriving Repr, DecidableEq

/-- The cache-assisted validation block repeated in
`MetricsPipeline.process_metrics` and `MetricsPipeline._process_metrics_batch`:
look the record's cache key up in the validation cache; on a miss, call the
ingestion adapter's validator and cache its result (default TTL).  `keyOf`
models `f"validate_{hash(str(metrics_data))}"`. -/
def MetricsPipeline.cached_validate {α : Type} (validate : α → ValidationResult)
    (keyOf : α → String) (c : SimpleCache ValidationResult) (now : Int) (a : α) :
    ValidationResult × SimpleCache ValidationResult :=
  match SimpleCache.get c (keyOf a) now with
  | (some v, c1) => (v, c1)
  | (none, c1) =>
      let v := validate a
      (v, c1.set (keyOf a) v none now)

/-- `MetricsPipeline.process_metrics`: validate (cache-assisted), parse into the
canonical record shape (`parse` models `MetricsData.parse_obj`), then store
through `with_retry` (default delay `1.0`, backoff `2.0`, catching every
exception).  Returns the success boolean, the updated cache, and the number of
invocations of the storage collaborator's `store` (0 when validation or parsing
fails).  Every failure path returns `false`; none raises. -/
def MetricsPipeline.process_metrics {α ρ : Type} (validate : α → ValidationResult)
    (keyOf : α → String) (parse : α → Except String ρ)
    (store : ρ → Nat → Except String Bool) (retry_count : Nat)
    (c : SimpleCache ValidationResult) (now : Int) (a : α) :
    Bool × SimpleCache ValidationResult × Nat :=
  let (vr, c1) := MetricsPipeline.cached_validate validate keyOf c now a
  if vr.valid then
    match parse a with
    | .error _ => (false, c1, 0)
    | .ok obj =>
        let r := with_retry (store obj) (fun _ => true) retry_count 1 2
        match r.result with
        | .ok b => (b, c1, r.invocations)
        | .error _ => (false, c1, r.invocations)
  else (false, c1, 0)

/-- The validation loop of `MetricsPipeline._process_metrics_batch`: for each
record (in order), validate cache-assisted; a valid record that parses joins
`valid_metrics`, a parse failure or an invalid record increments
`failure_count` and appends a failure entry.  Returns
`(valid_metrics, failure_count, failures, cache)`. -/
def MetricsPipeline.pmb_loop {α ρ : Type} (validate : α → ValidationResult)
    (keyOf : α → String) (parse : α → Except String ρ) (now : Int) :
    List α → SimpleCache ValidationResult →
    List ρ × Nat × List (FailureEntry α ρ) × SimpleCache ValidationResult
  | [], c => ([], 0, [], c)
  | a :: rest, c =>
      let (vr, c1) := MetricsPipeline.cached_validate validate keyOf c now a
      let (vs, fc, fs, c2) := MetricsPipeline.pmb_loop validate keyOf parse now rest c1
      if vr.valid then
        match parse a with
        | .ok obj => (obj :: vs, fc, fs, c2)
        | .error e =>
            (vs, fc + 1, ⟨.raw a, some ["Error parsing metrics data: " ++ e]⟩ :: fs, c2)
      else (vs, fc + 1, ⟨.raw a, vr.errors⟩ :: fs, c2)

/-- `MetricsPipeline._process_metrics_batch`: validate every record
(cache-assisted) and partition into valid/invalid, then `batch_store` the valid
set through `with_retry`; on success merge the storage result's counts and
failures into the validation failures, and on an exception after exhausted
retries count every valid record as failed with a `"Storage error: ..."` entry.
`batchStore l n` is the behaviour of the storage collaborator's `batch_store`
on its `n`-th invocation for input `l`. -/
def MetricsPipeline.process_metrics_batch {α ρ : Type} (validate : α → ValidationResult)
    (keyOf : α → String) (parse : α → Except String ρ)
    (batchStore : List ρ → Nat → Except String (MetricsBatchResult (FailureEntry α ρ)))
    (retry_count : Nat) (batch : List α) (c : SimpleCache ValidationResult)
    (now : Int) : MetricsBatchResult (FailureEntry α ρ) × SimpleCache ValidationResult :=
  let (valid_metrics, fc, fs, c1) := MetricsPipeline.pmb_loop validate keyOf parse now batch c
  if valid_metrics.isEmpty then (⟨0, fc, fs⟩, c1)
  else
    match (with_retry (batchStore valid_metrics) (fun _ => true) retry_count 1 2).result with
    | .ok sr => (⟨sr.success_count, fc + sr.failure_count, fs ++ sr.failures⟩, c1)
    | .error e =>
        (⟨0, fc + valid_metrics.length,
          fs ++ valid_metrics.map (fun m => ⟨.record m, some ["Storage error: " ++ e]⟩)⟩, c1)

/-- The loop of `MetricsPipeline.process_batch`: add every record to the batch
processor via `add_item`, discarding each `add_item` return value (the source
loop does not bind the awaited result).  `pairs` carries the wall-clock time of
each `add_item` call. -/
def MetricsPipeline.add_loop {α γ : Type} (f : List α → Except String γ) :
    List (α × Int) → BatchProcessor α → BatchProcessor α
  | [], s => s
  | (a, t) :: rest, s =>
      MetricsPipeline.add_loop f rest (BatchProcessor.add_item f s t a).2

/-- `MetricsPipeline.process_batch`: add every record via `add_item`, then
return the result of one forced `_process_batch()` call at time `tEnd`. -/
def MetricsPipeline.process_batch {α γ : Type} (f : List α → Except String γ)
    (pairs : List (α × Int)) (tEnd : Int) (s : BatchProcessor α) :
    FlushResult γ × BatchProcessor α :=
  BatchProcessor.process_batch f (MetricsPipeline.add_loop f pairs s) tEnd

/-- Like `MetricsPipeline.add_loop`, but also collecting the flush outcome each
`add_item` call returned, in call order (instrumentation used to compare the
implementation with the specification's merge description). -/
def MetricsPipeline.add_loop_collect {α γ : Type} (f : List α → Except String γ) :
    List (α × Int) → BatchProcessor α → List (FlushResult γ) × BatchProcessor α
  | [], s => ([], s)
  | (a, t) :: rest, s =>
      let (r, s1) := BatchProcessor.add_item f s t a
      let (rs, s2) := MetricsPipeline.add_loop_collect f rest s1
      (r :: rs, s2)

/-- Success count visible in a flush outcome (`0` for the key-less `{}`). -/
def FlushResult.successOf {γ : Type} (sc : γ → Nat) : FlushResult γ → Nat
  | .empty => 0
  | .ok r => sc r
  | .errorResult s _ _ => s

/-- Failure count visible in a flush outcome (`0` for the key-less `{}`). -/
def FlushResult.failureOf {γ : Type} (fc : γ → Nat) : FlushResult γ → Nat
  | .empty => 0
  | .ok r => fc r
  | .errorResult _ f _ => f

/-- Modelled from the spec: "the caller-visible outcome for a `process_batch`
call is obtained by forcing one additional flush of anything still pending
after all items are added, then merging it with whatever flush outcomes were
produced along the way".  Returns the (success, failure) counts of that merged
outcome: the sum over all `add_item` outcomes plus the forced final flush. -/
def MetricsPipeline.process_batch_spec_merged {α γ : Type} (sc fc : γ → Nat)
    (f : List α → Except String γ) (pairs : List (α × Int)) (tEnd : Int)
    (s : BatchProcessor α) : Nat × Nat :=
  let (rs, s1) := MetricsPipeline.add_loop_collect f pairs s
  let (r, _) := BatchProcessor.process_batch f s1 tEnd
  ((rs ++ [r]).map (FlushResult.successOf sc) |>.sum,
   (rs ++ [r]).map (FlushResult.failureOf fc) |>.sum)


/-- The value of a health-result's `"details"` field: either the collaborator's
own detail map (opaque, type `δ`) or the `{"error": str(e)}` map built by
`health_check` when a collaborator's check raised. -/
inductive HealthDetails (δ : Type) where
  | native (d : δ) : HealthDetails δ
  | errorDetail (msg : String) : HealthDetails δ
deriving Repr, DecidableEq

/-- A health-check result dictionary `{"status": ..., "details": ...}`; the
status is the raw string the collaborator reported. -/
structure HealthResult (δ : Type) where
  status : String
  details : HealthDetails δ
deriving Repr, DecidableEq

/-- The composite health report returned by `MetricsPipeline.health_check`
(`timestamp` carries `datetime.now().isoformat()`, supplied by the caller of
the model). -/
structure HealthReport (δ : Type) where
  status : String
  timestamp : String
  ingestion : HealthResult δ
  storage : HealthResult δ
  queue_size : Nat
  cache_entries_removed : Nat
deriving Repr, DecidableEq

/-- The per-collaborator block of `MetricsPipeline.health_check`: run the
collaborator's `health_check` through `with_retry(retries=1, delay=0.5)`
(backoff default `2.0`, catching every exception) and fold an exception that
survives the retry into `{"status": "unhealthy", "details": {"error": ...}}`. -/
def MetricsPipeline.checked_health {δ : Type}
    (attempts : Nat → Except String (HealthResult δ)) : HealthResult δ :=
  match (with_retry attempts (fun _ => true) 1 (1 / 2) 2).result with
  | .ok h => h
  | .error e => ⟨"unhealthy", .errorDetail e⟩

/-- `MetricsPipeline.health_check`: check both collaborators (each folded per
`checked_health`), compose the overall status (`"unhealthy"` if either is
`"unhealthy"`, else `"degraded"` if either is `"degraded"`, else `"healthy"`),
run the cache's `cleanup`, and report queue depth and removed entries.  Total:
no path raises to the caller. -/
def MetricsPipeline.health_check {δ v : Type}
    (ingestion sto : Nat → Except String (HealthResult δ))
    (nowIso : String) (c : SimpleCache v) (now : Int) (queueSize : Nat) :
    HealthReport δ × SimpleCache v :=
  let ih := MetricsPipeline.checked_health ingestion
  let sh := MetricsPipeline.checked_health sto
  let status :=
    if ih.status = "unhealthy" ∨ sh.status = "unhealthy" then "unhealthy"
    else if ih.status = "degraded" ∨ sh.status = "degraded" then "degraded"
    else "healthy"
  let (removed, c1) := c.cleanup now
  (⟨status, nowIso, ih, sh, queueSize, removed⟩, c1)

/-- One element of a raw record's `"metrics"` array as seen by
`HTTPIngestionAdapter.validate`: either not a dictionary, or a dictionary whose
presence of the required `"name"` and `"value"` keys is recorded. -/
inductive RawMetricItem where
  | notDict : RawMetricItem
  | dict (hasName hasValue : Bool) : RawMetricItem
deriving Repr, DecidableEq

/-- The shape of a raw record's `"metrics"` field: absent, present but not a
list, or a list of items. -/
inductive MetricsField where
  | absent : MetricsField
  | notList : MetricsField
  | list (items : List RawMetricItem) : MetricsField
deriving Repr, DecidableEq

/-- The aspects of a raw metrics dictionary that
`HTTPIngestionAdapter.validate` inspects: presence of the required top-level
keys `"timestamp"` and `"metric_type"`, and the shape of `"metrics"`. -/
structure RawRecord where
  hasTimestamp : Bool
  hasMetricType : Bool
  metrics : MetricsField
deriving Repr, DecidableEq

/-- The per-item half of `HTTPIngestionAdapter.validate`: for the item at index
`i`, a non-dictionary contributes one error, and a dictionary contributes one
error per missing required key (`"name"` before `"value"`). -/
def metricItemErrors : List RawMetricItem → Nat → List String
  | [], _ => []
  | .notDict :: rest, i =>
      ("Metric at index " ++ toString i ++ " is not a dictionary")
        :: metricItemErrors rest (i + 1)
  | .dict hasName hasValue :: rest, i =>
      ((if hasName then [] else
          ["Metric at index " ++ toString i ++ " missing required field: name"]) ++
       (if hasValue then [] else
          ["Metric at index " ++ toString i ++ " missing required field: value"])) ++
      metricItemErrors rest (i + 1)

/-- `HTTPIngestionAdapter.validate`: collect one error per missing required
top-level field (in the order timestamp, metric_type, metrics), then — when
`"metrics"` is present — either the per-item errors (for a list) or a single
must-be-an-array error.  `valid` holds iff no error was collected, and `errors`
is `None` exactly when the list is empty. -/
def HTTPIngestionAdapter.validate (r : RawRecord) : ValidationResult :=
  let errors :=
    (if r.hasTimestamp then [] else ["Missing required field: timestamp"]) ++
    (if r.hasMetricType then [] else ["Missing required field: metric_type"]) ++
    (match r.metrics with
     | .absent => ["Missing required field: metrics"]
     | _ => []) ++
    (match r.metrics with
     | .list items => metricItemErrors items 0
     | .notList => ["'metrics' field must be an array"]
     | .absent => [])
  { valid := errors.isEmpty, errors := if errors.isEmpty then none else some errors }

/-- C10: flushing the accumulator while the pending list is empty is a no-op:
it returns the key-less `{}` outcome, leaves the whole state (in particular
`last_process_time`) unchanged, and — since the returned value is the same for
every injected function `f` — does not invoke the injected function;
consequently a `process_batch` call whose items were all flushed mid-loop
receives this empty outcome as its result. -/
theorem empty_flush_noop {α γ : Type} (f : List α → Except String γ)
    (s s0 : BatchProcessor α) (now tEnd : Int) (pairs : List (α × Int)) :
    (s.items = [] → BatchProcessor.process_batch f s now = (.empty, s)) ∧
    ((MetricsPipeline.add_loop f pairs s0).items = [] →
      (MetricsPipeline.process_batch f pairs tEnd s0).1 = .empty) := by
  constructor
  · intro h
    simp [BatchProcessor.process_batch, h]
  · intro h
    unfold MetricsPipeline.process_batch
    simp [BatchProcessor.process_batch, h]

/-- Witness for `empty_flush_noop`: with `batch_size = 3` all three records are
flushed by the third `add_item` call, and the caller of `process_batch` gets
the empty outcome. -/
theorem empty_flush_noop_witness :
    (MetricsPipeline.add_loop (fun l => Except.ok l.length) [(1, 0), (2, 0), (3, 0)]
        (⟨3, 100, [], 0⟩ : BatchProcessor Nat)).items = [] ∧
    (MetricsPipeline.process_batch (fun l => Except.ok l.length) [(1, 0), (2, 0), (3, 0)] 0
        (⟨3, 100, [], 0⟩ : BatchProcessor Nat)).1 = FlushResult.empty :=
  ⟨by decide,
   (empty_flush_noop (fun l => Except.ok l.length) ⟨3, 100, [], 0⟩ ⟨3, 100, [], 0⟩ 0 0
      [(1, 0), (2, 0), (3, 0)]).2 (by decide)⟩

/-- C6: when the injected batch-processing function raises on a non-empty
flush, the accumulator does not propagate the exception: it returns the
synthetic outcome with `success_count = 0`, `failure_count` equal to the number
of flushed items and the error message attached once, and the pending list
stays cleared (the failed items are not re-queued). -/
theorem flush_exception_contract {α γ : Type} (f : List α → Except String γ)
    (s : BatchProcessor α) (now : Int) (e : String)
    (hne : s.items ≠ []) (herr : f s.items = .error e) :
    BatchProcessor.process_batch f s now =
      (.errorResult 0 s.items.length e,
       { s with items := [], last_process_time := now }) := by
  have hietf : s.items.isEmpty = false := by
    cases h : s.items with
    | nil => exact absurd h hne
    | cons a l => rfl
  simp [BatchProcessor.process_batch, hietf, herr]

/-- Witness for `flush_exception_contract` at a concrete failing flush. -/
theorem flush_exception_contract_witness :
    BatchProcessor.process_batch (fun _ => (Except.error "boom" : Except String Nat))
        (⟨5, 100, [7, 8], 0⟩ : BatchProcessor Nat) 42 =
      (.errorResult 0 2 "boom", ⟨5, 100, [], 42⟩) :=
  flush_exception_contract (fun _ => Except.error "boom") ⟨5, 100, [7, 8], 0⟩ 42 "boom"
    (by decide) rfl

/-- C5: `add_item` appends the item; a call that brings the pending count to
the size threshold runs the flush synchronously and returns its outcome, and a
call that triggers neither the size nor the time threshold returns the empty
outcome with the item left queued.  In the `batch_size = 3` scenario (time
threshold never reached), the first two `add_item` calls just queue, the third
fires exactly one flush whose input is exactly `[a, b, c]` (in submission
order) and returns that flush's outcome, and a fourth call starts from a fresh
empty batch. -/
theorem add_item_contract {α γ : Type} (f : List α → Except String γ) :
    (∀ (s : BatchProcessor α) (t : Int) (a : α),
      s.batch_size ≤ s.items.length + 1 →
      BatchProcessor.add_item f s t a =
        BatchProcessor.process_batch f { s with items := s.items ++ [a] } t) ∧
    (∀ (s : BatchProcessor α) (t : Int) (a : α),
      s.items.length + 1 < s.batch_size → t - s.last_process_time < s.batch_timeout →
      BatchProcessor.add_item f s t a = (.empty, { s with items := s.items ++ [a] })) ∧
    (∀ (w T t1 t2 t3 t4 : Int) (a b c d : α),
      t1 - T < w → t2 - T < w → t4 - t3 < w →
      BatchProcessor.add_item f ⟨3, w, [], T⟩ t1 a = (.empty, ⟨3, w, [a], T⟩) ∧
      BatchProcessor.add_item f ⟨3, w, [a], T⟩ t2 b = (.empty, ⟨3, w, [a, b], T⟩) ∧
      BatchProcessor.add_item f ⟨3, w, [a, b], T⟩ t3 c =
        BatchProcessor.process_batch f ⟨3, w, [a, b, c], T⟩ t3 ∧
      (BatchProcessor.process_batch f ⟨3, w, [a, b, c], T⟩ t3).2 = ⟨3, w, [], t3⟩ ∧
      BatchProcessor.add_item f ⟨3, w, [], t3⟩ t4 d = (.empty, ⟨3, w, [d], t3⟩)) := by
  refine ⟨?_, ?_, ?_⟩
  · intro s t a hsize
    simp only [BatchProcessor.add_item, List.length_append, List.length_cons,
      List.length_nil]
    rw [if_pos]
    simpa using hsize
  · intro s t a hsize htime
    simp only [BatchProcessor.add_item, List.length_append, List.length_cons,
      List.length_nil]
    rw [if_neg, if_neg]
    · intro h
      exact absurd h.1 (by omega)
    · simpa using by omega
  · intro w T t1 t2 t3 t4 a b c d h1 h2 h4
    refine ⟨?_, ?_, ?_, ?_, ?_⟩
    · simp only [BatchProcessor.add_item]
      rw [if_neg (by simp), if_neg (by simp; omega)]
      simp
    · simp only [BatchProcessor.add_item]
      rw [if_neg (by simp), if_neg (by simp; omega)]
      simp
    · simp only [BatchProcessor.add_item]
      rw [if_pos (by simp)]
      simp
    · unfold BatchProcessor.process_batch
      cases h : f [a, b, c] <;> simp [h]
    · simp only [BatchProcessor.add_item]
      rw [if_neg (by simp), if_neg (by simp; omega)]
      simp

/-- Witness for `add_item_contract`: the `batch_size = 3` scenario run with a
concrete flush function and concrete times. -/
theorem add_item_contract_witness :
    BatchProcessor.add_item (fun l => Except.ok l.length)
        (⟨3, 100, [], 0⟩ : BatchProcessor Nat) 1 10 = (.empty, ⟨3, 100, [10], 0⟩) ∧
    BatchProcessor.add_item (fun l => Except.ok l.length)
        (⟨3, 100, [10], 0⟩ : BatchProcessor Nat) 2 20 = (.empty, ⟨3, 100, [10, 20], 0⟩) ∧
    BatchProcessor.add_item (fun l => Except.ok l.length)
        (⟨3, 100, [10, 20], 0⟩ : BatchProcessor Nat) 3 30 =
      BatchProcessor.process_batch (fun l => Except.ok l.length)
        (⟨3, 100, [10, 20, 30], 0⟩ : BatchProcessor Nat) 3 ∧
    (BatchProcessor.process_batch (fun l => Except.ok l.length)
        (⟨3, 100, [10, 20, 30], 0⟩ : BatchProcessor Nat) 3).2 = ⟨3, 100, [], 3⟩ ∧
    BatchProcessor.add_item (fun l => Except.ok l.length)
        (⟨3, 100, [], 3⟩ : BatchProcessor Nat) 4 40 = (.empty, ⟨3, 100, [40], 3⟩) :=
  (add_item_contract (fun l => Except.ok l.length)).2.2 100 0 1 2 3 4 10 20 30 40
    (by decide) (by decide) (by decide)

/-- C1 counterexample: with `batch_size = 2` and three submitted records, the
second `add_item` call flushes `[10, 20]` mid-loop (an outcome worth 2
successes that the `process_batch` loop discards), and the forced final flush
only covers `[30]`; the caller-visible outcome reports `success_count = 1`,
whereas the merge of the forced flush with the mid-loop flush outcomes (the
spec's description, `process_batch_spec_merged`) reports 3 successes.  The
claim that the returned outcome equals that merge is therefore false. -/
theorem process_batch_merge_counterexample :
    (MetricsPipeline.process_batch
        (fun l => (Except.ok ⟨l.length, 0, []⟩ : Except String (MetricsBatchResult Nat)))
        [(10, 0), (20, 0), (30, 0)] 0 (⟨2, 100, [], 0⟩ : BatchProcessor Nat)).1 =
      .ok ⟨1, 0, []⟩ ∧
    MetricsPipeline.process_batch_spec_merged
        (fun r => r.success_count) (fun r => r.failure_count)
        (fun l => (Except.ok ⟨l.length, 0, []⟩ : Except String (MetricsBatchResult Nat)))
        [(10, 0), (20, 0), (30, 0)] 0 (⟨2, 100, [], 0⟩ : BatchProcessor Nat) = (3, 0) ∧
    FlushResult.successOf (fun r => r.success_count)
        (MetricsPipeline.process_batch
          (fun l => (Except.ok ⟨l.length, 0, []⟩ : Except String (MetricsBatchResult Nat)))
          [(10, 0), (20, 0), (30, 0)] 0 (⟨2, 100, [], 0⟩ : BatchProcessor Nat)).1 ≠
      (MetricsPipeline.process_batch_spec_merged
        (fun r => r.success_count) (fun r => r.failure_count)
        (fun l => (Except.ok ⟨l.length, 0, []⟩ : Except String (MetricsBatchResult Nat)))
        [(10, 0), (20, 0), (30, 0)] 0 (⟨2, 100, [], 0⟩ : BatchProcessor Nat)).1 := by
  refine ⟨by decide, by decide, by decide⟩

/-- C1 amended: `process_batch` returns exactly the outcome of the single
forced flush performed after all items have been added; the flush outcomes
produced by the individual `add_item` calls along the way are discarded, so a
call whose records were all flushed mid-loop receives the empty outcome. -/
theorem process_batch_final_flush_only {α γ : Type} (f : List α → Except String γ)
    (pairs : List (α × Int)) (tEnd : Int) (s : BatchProcessor α) :
    MetricsPipeline.process_batch f pairs tEnd s =
      BatchProcessor.process_batch f (MetricsPipeline.add_loop f pairs s) tEnd ∧
    ((MetricsPipeline.add_loop f pairs s).items = [] →
      (MetricsPipeline.process_batch f pairs tEnd s).1 = .empty) := by
  refine ⟨rfl, ?_⟩
  intro h
  unfold MetricsPipeline.process_batch
  simp [BatchProcessor.process_batch, h]

/-- Witness for `process_batch_final_flush_only` at a concrete run in which the
single mid-loop flush consumed every record. -/
theorem process_batch_final_flush_only_witness :
    (MetricsPipeline.process_batch
        (fun l => (Except.ok ⟨l.length, 0, []⟩ : Except String (MetricsBatchResult Nat)))
        [(10, 0), (20, 0)] 0 (⟨2, 100, [], 0⟩ : BatchProcessor Nat)).1 = .empty :=
  (process_batch_final_flush_only
      (fun l => (Except.ok ⟨l.length, 0, []⟩ : Except String (MetricsBatchResult Nat)))
      [(10, 0), (20, 0)] 0 ⟨2, 100, [], 0⟩).2 (by decide)

/-- The validation loop preserves the record count: every record lands either
in `valid_metrics` or in the failure tally. -/
theorem pmb_loop_length {α ρ : Type} (validate : α → ValidationResult)
    (keyOf : α → String) (parse : α → Except String ρ) (now : Int) :
    ∀ (batch : List α) (c : SimpleCache ValidationResult),
      (MetricsPipeline.pmb_loop validate keyOf parse now batch c).1.length +
        (MetricsPipeline.pmb_loop validate keyOf parse now batch c).2.1 = batch.length := by
  intro batch
  induction batch with
  | nil => intro c; simp [MetricsPipeline.pmb_loop]
  | cons a rest ih =>
      intro c
      rcases hcv : MetricsPipeline.cached_validate validate keyOf c now a with ⟨vr, c1⟩
      rcases hrec : MetricsPipeline.pmb_loop validate keyOf parse now rest c1
        with ⟨vs, fc, fs, c2⟩
      have ih1 := ih c1
      rw [hrec] at ih1
      simp at ih1
      cases hvld : vr.valid with
      | true =>
          cases hp : parse a with
          | ok obj =>
              simp [MetricsPipeline.pmb_loop, hcv, hrec, hvld, hp]
              omega
          | error e =>
              simp [MetricsPipeline.pmb_loop, hcv, hrec, hvld, hp]
              omega
      | false =>
          simp [MetricsPipeline.pmb_loop, hcv, hrec, hvld]
          omega

/-- A successful `with_retry` outcome is the value returned by one of the
attempts. -/
theorem withRetryGo_ok_exists {ε α : Type} (attempts : Nat → Except ε α)
    (retryable : ε → Bool) (backoff : ℚ) :
    ∀ (n : Nat) (d : ℚ) (i : Nat) (v : α),
      (withRetryGo attempts retryable backoff d i n).result = .ok v →
      ∃ k, attempts k = .ok v := by
  intro n
  induction n with
  | zero =>
      intro d i v h
      simp only [withRetryGo] at h
      exact ⟨i, h⟩
  | succ m ih =>
      intro d i v h
      simp only [withRetryGo] at h
      cases ha : attempts i with
      | ok a =>
          rw [ha] at h
          simp at h
          exact ⟨i, by rw [ha, h]⟩
      | error e =>
          rw [ha] at h
          by_cases hr : retryable e = true
          · simp [hr] at h
            exact ih (d * backoff) (i + 1) v h
          · simp [hr] at h

/-- C2: `success_count + failure_count` equals the number of records submitted,
for both batch operations.  Part 1: the orchestrator's internal per-batch flush
function (`_process_metrics_batch`), assuming the storage collaborator's
`batch_store` satisfies the invariant on its own input; part 2: the
accumulator's flush, including its exception path, where every item of a failed
attempt is counted as a failure (`cntS`/`cntF` read the counts out of the
injected function's result, which is assumed to satisfy the invariant). -/
theorem batch_counts_invariant :
    (∀ (α ρ : Type) (validate : α → ValidationResult) (keyOf : α → String)
        (parse : α → Except String ρ)
        (batchStore : List ρ → Nat → Except String (MetricsBatchResult (FailureEntry α ρ)))
        (retry_count : Nat) (batch : List α) (c : SimpleCache ValidationResult) (now : Int),
      (∀ l n r, batchStore l n = .ok r → r.success_count + r.failure_count = l.length) →
      (MetricsPipeline.process_metrics_batch validate keyOf parse batchStore retry_count
          batch c now).1.success_count +
        (MetricsPipeline.process_metrics_batch validate keyOf parse batchStore retry_count
          batch c now).1.failure_count = batch.length) ∧
    (∀ (α γ : Type) (cntS cntF : γ → Nat) (f : List α → Except String γ)
        (s : BatchProcessor α) (now : Int),
      (∀ l r, f l = .ok r → cntS r + cntF r = l.length) →
      FlushResult.successOf cntS (BatchProcessor.process_batch f s now).1 +
        FlushResult.failureOf cntF (BatchProcessor.process_batch f s now).1 =
          s.items.length) := by
  constructor
  · intro α ρ validate keyOf parse batchStore retry_count batch c now hstore
    rcases hloop : MetricsPipeline.pmb_loop validate keyOf parse now batch c
      with ⟨vs, fc, fs, c1⟩
    have hlen := pmb_loop_length validate keyOf parse now batch c
    rw [hloop] at hlen
    simp only [MetricsPipeline.process_metrics_batch, hloop]
    cases hvs : vs with
    | nil =>
        simp only [List.isEmpty_nil, if_true]
        simp only [hvs, List.length_nil] at hlen
        simpa using hlen
    | cons x xs =>
        simp only [hvs, List.isEmpty_cons, Bool.false_eq_true, if_false]
        cases hr : (with_retry (batchStore (x :: xs)) (fun _ => true) retry_count 1 2).result with
        | ok sr =>
            obtain ⟨k, hk⟩ := withRetryGo_ok_exists (batchStore (x :: xs)) (fun _ => true) 2
              retry_count 1 0 sr hr
            have := hstore (x :: xs) k sr hk
            simp only [hvs] at hlen
            simp only []
            omega
        | error e =>
            simp only [hvs] at hlen
            simp only [List.length_cons] at *
            omega
  · intro α γ cntS cntF f s now hf
    cases hitems : s.items with
    | nil =>
        simp [BatchProcessor.process_batch, hitems, FlushResult.successOf,
          FlushResult.failureOf]
    | cons x xs =>
        cases hfr : f (x :: xs) with
        | ok r =>
            have h2 := hf (x :: xs) r hfr
            simp [BatchProcessor.process_batch, hitems, hfr, FlushResult.successOf,
              FlushResult.failureOf]
            simp at h2
            omega
        | error e =>
            simp [BatchProcessor.process_batch, hitems, hfr, FlushResult.successOf,
              FlushResult.failureOf]

/-- Witness for `batch_counts_invariant`: a three-record batch (one failing
validation) tallies to 3, and a two-item accumulator flush tallies to 2. -/
theorem batch_counts_invariant_witness :
    ((MetricsPipeline.process_metrics_batch
        (fun n : Nat => if n = 2 then ⟨false, some ["bad"]⟩ else ⟨true, none⟩)
        (fun n => toString n) (fun n => Except.ok n)
        (fun l _ => Except.ok ⟨l.length, 0, []⟩) 3 [1, 2, 3]
        (⟨300, 1000, []⟩ : SimpleCache ValidationResult) 0).1.success_count +
      (MetricsPipeline.process_metrics_batch
        (fun n : Nat => if n = 2 then ⟨false, some ["bad"]⟩ else ⟨true, none⟩)
        (fun n => toString n) (fun n => Except.ok n)
        (fun l _ => Except.ok ⟨l.length, 0, []⟩) 3 [1, 2, 3]
        (⟨300, 1000, []⟩ : SimpleCache ValidationResult) 0).1.failure_count = 3) ∧
    (FlushResult.successOf (fun n : Nat => n)
        (BatchProcessor.process_batch (fun l => Except.ok l.length)
          (⟨5, 100, [1, 2], 0⟩ : BatchProcessor Nat) 7).1 +
      FlushResult.failureOf (fun _ => 0)
        (BatchProcessor.process_batch (fun l => Except.ok l.length)
          (⟨5, 100, [1, 2], 0⟩ : BatchProcessor Nat) 7).1 = 2) :=
  ⟨batch_counts_invariant.1 Nat Nat
      (fun n => if n = 2 then ⟨false, some ["bad"]⟩ else ⟨true, none⟩)
      (fun n => toString n) (fun n => Except.ok n)
      (fun l _ => Except.ok ⟨l.length, 0, []⟩) 3 [1, 2, 3] ⟨300, 1000, []⟩ 0
      (fun l n r h => by injection h with h2; rw [← h2]; rfl),
   batch_counts_invariant.2 Nat Nat (fun n => n) (fun _ => 0)
      (fun l => Except.ok l.length) ⟨5, 100, [1, 2], 0⟩ 7
      (fun l r h => by injection h with h2; rw [← h2]; rfl)⟩

/-- The sequence of waits performed by `with_retry` before its `(k+1)`-th
attempt: `k` delays starting at `d`, each multiplied by `b`. -/
def backoffWaits (d b : ℚ) : Nat → List ℚ
  | 0 => []
  | k + 1 => d :: backoffWaits (d * b) b k

/-- `with_retry` never invokes the operation more than `n + 1` times. -/
theorem withRetryGo_invocations_le {ε α : Type} (attempts : Nat → Except ε α)
    (retryable : ε → Bool) (backoff : ℚ) :
    ∀ (n : Nat) (d : ℚ) (i : Nat),
      (withRetryGo attempts retryable backoff d i n).invocations ≤ n + 1 := by
  intro n
  induction n with
  | zero => intro d i; simp [withRetryGo]
  | succ m ih =>
      intro d i
      simp only [withRetryGo]
      cases ha : attempts i with
      | ok a => simp
      | error e =>
          by_cases hr : retryable e = true
          · have h2 := ih (d * backoff) (i + 1)
            simp [hr]
            omega
          · simp [hr]

/-- If the attempt at offset `k` succeeds after `k` qualifying failures and
`k ≤ n`, the loop stops there: it returns that value with `k + 1` invocations
and exactly the `k` backoff waits. -/
theorem withRetryGo_success {ε α : Type} (attempts : Nat → Except ε α)
    (retryable : ε → Bool) (backoff : ℚ) :
    ∀ (k n i : Nat) (d : ℚ) (v : α),
      attempts (i + k) = .ok v →
      (∀ j, j < k → ∃ e, attempts (i + j) = .error e ∧ retryable e = true) →
      k ≤ n →
      withRetryGo attempts retryable backoff d i n =
        ⟨.ok v, k + 1, backoffWaits d backoff k⟩ := by
  intro k
  induction k with
  | zero =>
      intro n i d v hok _ _
      simp only [Nat.add_zero] at hok
      cases n with
      | zero => simp [withRetryGo, hok, backoffWaits]
      | succ m => simp [withRetryGo, hok, backoffWaits]
  | succ k ih =>
      intro n i d v hok hfail hle
      cases n with
      | zero => omega
      | succ m =>
          obtain ⟨e, he, hrte⟩ := hfail 0 (by omega)
          simp only [Nat.add_zero] at he
          have hok1 : attempts (i + 1 + k) = .ok v := by
            rw [show i + 1 + k = i + (k + 1) by omega]; exact hok
          have hfail1 : ∀ j, j < k → ∃ e2, attempts (i + 1 + j) = .error e2 ∧
              retryable e2 = true := by
            intro j hj
            obtain ⟨e2, h1, h2⟩ := hfail (j + 1) (by omega)
            exact ⟨e2, by rw [show i + 1 + j = i + (j + 1) by omega]; exact h1, h2⟩
          have hrec := ih m (i + 1) (d * backoff) v hok1 hfail1 (by omega)
          simp [withRetryGo, he, hrte, hrec, backoffWaits]

/-- If every attempt up to offset `n` fails with a qualifying failure, the loop
result is exactly the failure of the last attempt. -/
theorem withRetryGo_exhaust {ε α : Type} (attempts : Nat → Except ε α)
    (retryable : ε → Bool) (backoff : ℚ) :
    ∀ (n i : Nat) (d : ℚ),
      (∀ j, j ≤ n → ∃ e, attempts (i + j) = .error e ∧ retryable e = true) →
      (withRetryGo attempts retryable backoff d i n).result = attempts (i + n) := by
  intro n
  induction n with
  | zero =>
      intro i d _
      simp [withRetryGo]
  | succ m ih =>
      intro i d hfail
      obtain ⟨e, he, hrte⟩ := hfail 0 (by omega)
      simp only [Nat.add_zero] at he
      have hfail1 : ∀ j, j ≤ m → ∃ e2, attempts (i + 1 + j) = .error e2 ∧
          retryable e2 = true := by
        intro j hj
        obtain ⟨e2, h1, h2⟩ := hfail (j + 1) (by omega)
        exact ⟨e2, by rw [show i + 1 + j = i + (j + 1) by omega]; exact h1, h2⟩
      have hrec := ih (i + 1) (d * backoff) hfail1
      rw [show i + (m + 1) = i + 1 + m by omega]
      simp [withRetryGo, he, hrte, hrec]

/-- C4: the retry executor invokes the operation at most `retries + 1` times;
if the first success comes at attempt `k` (zero-based, after `k` qualifying
failures) the result is returned at once — `k + 1` invocations, exactly the
`k` backoff waits already performed, and the success value unchanged; and if
all `retries + 1` attempts fail with qualifying failures, the failure of the
last attempt is propagated unchanged. -/
theorem with_retry_contract :
    (∀ (ε α : Type) (attempts : Nat → Except ε α) (retryable : ε → Bool)
        (retries : Nat) (delay backoff : ℚ),
      (with_retry attempts retryable retries delay backoff).invocations ≤ retries + 1) ∧
    (∀ (ε α : Type) (attempts : Nat → Except ε α) (retryable : ε → Bool)
        (retries k : Nat) (delay backoff : ℚ) (v : α),
      attempts k = .ok v →
      (∀ j, j < k → ∃ e, attempts j = .error e ∧ retryable e = true) →
      k ≤ retries →
      with_retry attempts retryable retries delay backoff =
        ⟨.ok v, k + 1, backoffWaits delay backoff k⟩) ∧
    (∀ (ε α : Type) (attempts : Nat → Except ε α) (retryable : ε → Bool)
        (retries : Nat) (delay backoff : ℚ),
      (∀ j, j ≤ retries → ∃ e, attempts j = .error e ∧ retryable e = true) →
      (with_retry attempts retryable retries delay backoff).result = attempts retries) := by
  refine ⟨?_, ?_, ?_⟩
  · intro ε α attempts retryable retries delay backoff
    exact withRetryGo_invocations_le attempts retryable backoff retries delay 0
  · intro ε α attempts retryable retries k delay backoff v hok hfail hle
    have := withRetryGo_success attempts retryable backoff k retries 0 delay v
      (by simpa using hok) (by simpa using hfail) hle
    simpa [with_retry] using this
  · intro ε α attempts retryable retries delay backoff hfail
    have := withRetryGo_exhaust attempts retryable backoff retries 0 delay
      (by simpa using hfail)
    simpa [with_retry] using this

/-- Witness for `with_retry_contract`: an operation failing twice then
succeeding returns 42 after exactly 3 invocations and waits `[1, 2]`; an
always-failing operation with `retries = 2` propagates the last error. -/
theorem with_retry_contract_witness :
    with_retry (fun k => if k < 2 then (Except.error "boom" : Except String Nat)
        else Except.ok 42) (fun _ => true) 3 1 2 = ⟨Except.ok 42, 3, [1, 2]⟩ ∧
    (with_retry (fun _ => (Except.error "x" : Except String Nat)) (fun _ => true)
        2 1 2).result = Except.error "x" ∧
    (with_retry (fun _ => (Except.error "x" : Except String Nat)) (fun _ => true)
        2 1 2).invocations ≤ 3 := by
  refine ⟨?_, ?_, ?_⟩
  · have h := with_retry_contract.2.1 String Nat
      (fun k => if k < 2 then (Except.error "boom" : Except String Nat) else Except.ok 42)
      (fun _ => true) 3 2 1 2 42 (by simp)
      (fun j hj => ⟨"boom", by simp [hj], rfl⟩) (by omega)
    rw [h]
    simp [backoffWaits]
  · exact with_retry_contract.2.2 String Nat
      (fun _ => (Except.error "x" : Except String Nat)) (fun _ => true) 2 1 2
      (fun j _ => ⟨"x", rfl, rfl⟩)
  · exact with_retry_contract.1 String Nat
      (fun _ => (Except.error "x" : Except String Nat)) (fun _ => true) 2 1 2

/-- The tri-state composition cascade on a pair of status strings. -/
theorem status_compose_iff (x y : String) :
    ((if x = "unhealthy" ∨ y = "unhealthy" then "unhealthy"
      else if x = "degraded" ∨ y = "degraded" then "degraded" else "healthy") = "unhealthy"
        ↔ x = "unhealthy" ∨ y = "unhealthy") ∧
    ((if x = "unhealthy" ∨ y = "unhealthy" then "unhealthy"
      else if x = "degraded" ∨ y = "degraded" then "degraded" else "healthy") = "degraded"
        ↔ ¬(x = "unhealthy" ∨ y = "unhealthy") ∧ (x = "degraded" ∨ y = "degraded")) ∧
    ((if x = "unhealthy" ∨ y = "unhealthy" then "unhealthy"
      else if x = "degraded" ∨ y = "degraded" then "degraded" else "healthy") = "healthy"
        ↔ ¬(x = "unhealthy" ∨ y = "unhealthy") ∧ ¬(x = "degraded" ∨ y = "degraded")) := by
  have d1 : ("unhealthy" : String) ≠ "degraded" := by decide
  have d2 : ("unhealthy" : String) ≠ "healthy" := by decide
  have d3 : ("degraded" : String) ≠ "unhealthy" := by decide
  have d4 : ("degraded" : String) ≠ "healthy" := by decide
  have d5 : ("healthy" : String) ≠ "unhealthy" := by decide
  have d6 : ("healthy" : String) ≠ "degraded" := by decide
  by_cases h1 : x = "unhealthy" ∨ y = "unhealthy"
  · simp [h1, d1, d2]
  · by_cases h2 : x = "degraded" ∨ y = "degraded"
    · simp [h1, h2, d3, d4]
    · simp [h1, h2, d5, d6]

/-- When a collaborator's health check raises on both the first attempt and
its single retry, the folded per-collaborator result is the unhealthy record
carrying the last error. -/
theorem checked_health_error {δ : Type} (attempts : Nat → Except String (HealthResult δ))
    (e0 e1 : String) (h0 : attempts 0 = .error e0) (h1 : attempts 1 = .error e1) :
    MetricsPipeline.checked_health attempts = ⟨"unhealthy", .errorDetail e1⟩ := by
  have hres := withRetryGo_exhaust attempts (fun _ => true) 2 1 0 (1 / 2)
    (fun j hj => by
      match j, hj with
      | 0, _ => exact ⟨e0, h0, rfl⟩
      | 1, _ => exact ⟨e1, h1, rfl⟩)
  unfold MetricsPipeline.checked_health with_retry
  rw [hres]
  simp [h1]

/-- C7: the composite status returned by `health_check` is `"unhealthy"` iff
either folded collaborator result is `"unhealthy"`, `"degraded"` iff neither is
`"unhealthy"` and at least one is `"degraded"`, and `"healthy"` otherwise; and
a collaborator whose health check fails on both its attempt and its single
retry is folded in as `"unhealthy"` (never raised: `health_check` is total). -/
theorem health_check_contract {δ v : Type}
    (ingestion sto : Nat → Except String (HealthResult δ)) (nowIso : String)
    (c : SimpleCache v) (now : Int) (queueSize : Nat) :
    ((MetricsPipeline.health_check ingestion sto nowIso c now queueSize).1.status =
        "unhealthy" ↔
      (MetricsPipeline.health_check ingestion sto nowIso c now queueSize).1.ingestion.status =
          "unhealthy" ∨
        (MetricsPipeline.health_check ingestion sto nowIso c now queueSize).1.storage.status =
          "unhealthy") ∧
    ((MetricsPipeline.health_check ingestion sto nowIso c now queueSize).1.status =
        "degraded" ↔
      ¬((MetricsPipeline.health_check ingestion sto nowIso c now queueSize).1.ingestion.status =
          "unhealthy" ∨
        (MetricsPipeline.health_check ingestion sto nowIso c now queueSize).1.storage.status =
          "unhealthy") ∧
      ((MetricsPipeline.health_check ingestion sto nowIso c now queueSize).1.ingestion.status =
          "degraded" ∨
        (MetricsPipeline.health_check ingestion sto nowIso c now queueSize).1.storage.status =
          "degraded")) ∧
    ((MetricsPipeline.health_check ingestion sto nowIso c now queueSize).1.status =
        "healthy" ↔
      ¬((MetricsPipeline.health_check ingestion sto nowIso c now queueSize).1.ingestion.status =
          "unhealthy" ∨
        (MetricsPipeline.health_check ingestion sto nowIso c now queueSize).1.storage.status =
          "unhealthy") ∧
      ¬((MetricsPipeline.health_check ingestion sto nowIso c now queueSize).1.ingestion.status =
          "degraded" ∨
        (MetricsPipeline.health_check ingestion sto nowIso c now queueSize).1.storage.status =
          "degraded")) ∧
    (∀ e0 e1, ingestion 0 = .error e0 → ingestion 1 = .error e1 →
      (MetricsPipeline.health_check ingestion sto nowIso c now queueSize).1.ingestion =
        ⟨"unhealthy", .errorDetail e1⟩) ∧
    (∀ e0 e1, sto 0 = .error e0 → sto 1 = .error e1 →
      (MetricsPipeline.health_check ingestion sto nowIso c now queueSize).1.storage =
        ⟨"unhealthy", .errorDetail e1⟩) := by
  have hing : (MetricsPipeline.health_check ingestion sto nowIso c now queueSize).1.ingestion =
      MetricsPipeline.checked_health ingestion := rfl
  have hsto : (MetricsPipeline.health_check ingestion sto nowIso c now queueSize).1.storage =
      MetricsPipeline.checked_health sto := rfl
  have hstatus : (MetricsPipeline.health_check ingestion sto nowIso c now queueSize).1.status =
      (if (MetricsPipeline.checked_health ingestion).status = "unhealthy" ∨
          (MetricsPipeline.checked_health sto).status = "unhealthy" then "unhealthy"
       else if (MetricsPipeline.checked_health ingestion).status = "degraded" ∨
          (MetricsPipeline.checked_health sto).status = "degraded" then "degraded"
       else "healthy") := rfl
  obtain ⟨hc1, hc2, hc3⟩ := status_compose_iff
    (MetricsPipeline.checked_health ingestion).status
    (MetricsPipeline.checked_health sto).status
  refine ⟨?_, ?_, ?_, ?_, ?_⟩
  · rw [hstatus, hing, hsto]; exact hc1
  · rw [hstatus, hing, hsto]; exact hc2
  · rw [hstatus, hing, hsto]; exact hc3
  · intro e0 e1 h0 h1
    rw [hing]
    exact checked_health_error ingestion e0 e1 h0 h1
  · intro e0 e1 h0 h1
    rw [hsto]
    exact checked_health_error sto e0 e1 h0 h1

/-- Witness for `health_check_contract`: one healthy collaborator and one whose
check raises twice; the composite is `"unhealthy"` and the failing collaborator
is folded in as unhealthy with the second error attached. -/
theorem health_check_contract_witness :
    ((MetricsPipeline.health_check
        (fun _ => Except.ok (⟨"healthy", .native 0⟩ : HealthResult Nat))
        (fun _ => Except.error "down") "t" (⟨300, 1000, []⟩ : SimpleCache Nat)
        0 5).1.status = "unhealthy" ↔
      ((MetricsPipeline.health_check
        (fun _ => Except.ok (⟨"healthy", .native 0⟩ : HealthResult Nat))
        (fun _ => Except.error "down") "t" (⟨300, 1000, []⟩ : SimpleCache Nat)
        0 5).1.ingestion.status = "unhealthy" ∨
       (MetricsPipeline.health_check
        (fun _ => Except.ok (⟨"healthy", .native 0⟩ : HealthResult Nat))
        (fun _ => Except.error "down") "t" (⟨300, 1000, []⟩ : SimpleCache Nat)
        0 5).1.storage.status = "unhealthy")) ∧
    (MetricsPipeline.health_check
        (fun _ => Except.ok (⟨"healthy", .native 0⟩ : HealthResult Nat))
        (fun _ => Except.error "down") "t" (⟨300, 1000, []⟩ : SimpleCache Nat)
        0 5).1.storage = ⟨"unhealthy", .errorDetail "down"⟩ :=
  ⟨(health_check_contract
      (fun _ => Except.ok (⟨"healthy", .native 0⟩ : HealthResult Nat))
      (fun _ => Except.error "down") "t" ⟨300, 1000, []⟩ 0 5).1,
   (health_check_contract
      (fun _ => Except.ok (⟨"healthy", .native 0⟩ : HealthResult Nat))
      (fun _ => Except.error "down") "t" ⟨300, 1000, []⟩ 0 5).2.2.2.2
      "down" "down" rfl rfl⟩

/-- A raw record missing any of the required top-level fields fails HTTP
validation. -/
theorem http_validate_missing_field (rr : RawRecord)
    (h : rr.hasTimestamp = false ∨ rr.hasMetricType = false ∨ rr.metrics = .absent) :
    (HTTPIngestionAdapter.validate rr).valid = false := by
  rcases h with h | h | h
  · simp [HTTPIngestionAdapter.validate, h]
  · simp [HTTPIngestionAdapter.validate, h]
  · simp [HTTPIngestionAdapter.validate, h]

/-- C8: `process_metrics` returns `false` (and never raises — the model is a
total function) on each failure path: when the cache-assisted validation
result is invalid it returns `false` with zero storage calls; when parsing
fails it returns `false` with zero storage calls; and when every storage
attempt up to the retry budget raises, it returns `false`.  In particular a
record missing its `timestamp`, `metric_type` or `metrics` field, processed
with the HTTP validator and an empty cache, yields `false` with no storage
call. -/
theorem process_metrics_failure_contract :
    (∀ (α ρ : Type) (validate : α → ValidationResult) (keyOf : α → String)
        (parse : α → Except String ρ) (store : ρ → Nat → Except String Bool)
        (retry_count : Nat) (c : SimpleCache ValidationResult) (now : Int) (a : α),
      (MetricsPipeline.cached_validate validate keyOf c now a).1.valid = false →
      MetricsPipeline.process_metrics validate keyOf parse store retry_count c now a =
        (false, (MetricsPipeline.cached_validate validate keyOf c now a).2, 0)) ∧
    (∀ (α ρ : Type) (validate : α → ValidationResult) (keyOf : α → String)
        (parse : α → Except String ρ) (store : ρ → Nat → Except String Bool)
        (retry_count : Nat) (c : SimpleCache ValidationResult) (now : Int) (a : α)
        (e : String),
      parse a = .error e →
      MetricsPipeline.process_metrics validate keyOf parse store retry_count c now a =
        ((MetricsPipeline.cached_validate validate keyOf c now a).1.valid &&
            false, (MetricsPipeline.cached_validate validate keyOf c now a).2, 0)) ∧
    (∀ (α ρ : Type) (validate : α → ValidationResult) (keyOf : α → String)
        (parse : α → Except String ρ) (store : ρ → Nat → Except String Bool)
        (retry_count : Nat) (c : SimpleCache ValidationResult) (now : Int) (a : α)
        (obj : ρ),
      parse a = .ok obj →
      (∀ j, j ≤ retry_count → ∃ e, store obj j = .error e) →
      (MetricsPipeline.process_metrics validate keyOf parse store retry_count c now a).1 =
        false) ∧
    (∀ (ρ : Type) (keyOf : RawRecord → String) (parse : RawRecord → Except String ρ)
        (store : ρ → Nat → Except String Bool) (retry_count : Nat)
        (ttl : Int) (max_size : Nat) (now : Int) (rr : RawRecord),
      (rr.hasTimestamp = false ∨ rr.hasMetricType = false ∨ rr.metrics = .absent) →
      (MetricsPipeline.process_metrics HTTPIngestionAdapter.validate keyOf parse store
          retry_count (⟨ttl, max_size, []⟩ : SimpleCache ValidationResult) now rr).1 =
        false ∧
      (MetricsPipeline.process_metrics HTTPIngestionAdapter.validate keyOf parse store
          retry_count (⟨ttl, max_size, []⟩ : SimpleCache ValidationResult) now rr).2.2 =
        0) := by
  refine ⟨?_, ?_, ?_, ?_⟩
  · intro α ρ validate keyOf parse store retry_count c now a hinvalid
    rcases hcv : MetricsPipeline.cached_validate validate keyOf c now a with ⟨vr, c1⟩
    rw [hcv] at hinvalid
    simp at hinvalid
    simp [MetricsPipeline.process_metrics, hcv, hinvalid]
  · intro α ρ validate keyOf parse store retry_count c now a e hp
    rcases hcv : MetricsPipeline.cached_validate validate keyOf c now a with ⟨vr, c1⟩
    cases hvld : vr.valid with
    | true => simp [MetricsPipeline.process_metrics, hcv, hvld, hp]
    | false => simp [MetricsPipeline.process_metrics, hcv, hvld, hp]
  · intro α ρ validate keyOf parse store retry_count c now a obj hp hfail
    rcases hcv : MetricsPipeline.cached_validate validate keyOf c now a with ⟨vr, c1⟩
    cases hvld : vr.valid with
    | false => simp [MetricsPipeline.process_metrics, hcv, hvld]
    | true =>
        have hres := withRetryGo_exhaust (store obj) (fun _ => true) 2 retry_count 0 1
          (fun j hj => by
            obtain ⟨e, he⟩ := hfail j hj
            exact ⟨e, by simpa using he, rfl⟩)
        obtain ⟨e, he⟩ := hfail retry_count (by omega)
        simp only [Nat.zero_add] at hres
        rw [he] at hres
        simp [MetricsPipeline.process_metrics, hcv, hvld, hp, with_retry, hres]
  · intro ρ keyOf parse store retry_count ttl max_size now rr hmiss
    have hv := http_validate_missing_field rr hmiss
    have hcv : MetricsPipeline.cached_validate HTTPIngestionAdapter.validate keyOf
        (⟨ttl, max_size, []⟩ : SimpleCache ValidationResult) now rr =
        (HTTPIngestionAdapter.validate rr,
         SimpleCache.set ⟨ttl, max_size, []⟩ (keyOf rr) (HTTPIngestionAdapter.validate rr)
           none now) := by
      simp [MetricsPipeline.cached_validate, SimpleCache.get, lookupKey]
    constructor
    · simp [MetricsPipeline.process_metrics, hcv, hv]
    · simp [MetricsPipeline.process_metrics, hcv, hv]

/-- Witness for `process_metrics_failure_contract`: a record with no
`timestamp` field is rejected with zero storage calls; an always-failing store
yields `false` after the retry budget. -/
theorem process_metrics_failure_contract_witness :
    ((MetricsPipeline.process_metrics HTTPIngestionAdapter.validate (fun _ => "k")
        (fun r => Except.ok r) (fun _ _ => Except.ok true) 3
        (⟨300, 1000, []⟩ : SimpleCache ValidationResult) 0
        ⟨false, true, .list [.dict true true]⟩).1 = false ∧
      (MetricsPipeline.process_metrics HTTPIngestionAdapter.validate (fun _ => "k")
        (fun r => Except.ok r) (fun _ _ => Except.ok true) 3
        (⟨300, 1000, []⟩ : SimpleCache ValidationResult) 0
        ⟨false, true, .list [.dict true true]⟩).2.2 = 0) ∧
    (MetricsPipeline.process_metrics
        (fun _ : Nat => (⟨true, none⟩ : ValidationResult)) (fun _ => "k")
        (fun n => Except.ok n) (fun _ _ => Except.error "io") 2
        (⟨300, 1000, []⟩ : SimpleCache ValidationResult) 0 7).1 = false :=
  ⟨process_metrics_failure_contract.2.2.2 RawRecord (fun _ => "k")
      (fun r => Except.ok r) (fun _ _ => Except.ok true) 3 300 1000 0
      ⟨false, true, .list [.dict true true]⟩ (Or.inl rfl),
   process_metrics_failure_contract.2.2.1 Nat Nat
      (fun _ => (⟨true, none⟩ : ValidationResult)) (fun _ => "k")
      (fun n => Except.ok n) (fun _ _ => Except.error "io") 2 ⟨300, 1000, []⟩ 0 7 7
      rfl (fun _ _ => ⟨"io", rfl⟩)⟩

/-- Whether one element of the `"metrics"` array passes the per-item checks: it
must be a dictionary carrying both `"name"` and `"value"`. -/
def metricItemOk : RawMetricItem → Bool
  | .notDict => false
  | .dict hasName hasValue => hasName && hasValue

/-- The per-item error list is empty exactly when every item passes its
checks — vacuously so for the empty array. -/
theorem metricItemErrors_eq_nil (items : List RawMetricItem) :
    ∀ i, metricItemErrors items i = [] ↔ ∀ m ∈ items, metricItemOk m = true := by
  induction items with
  | nil => intro i; simp [metricItemErrors]
  | cons m rest ih =>
      intro i
      cases m with
      | notDict => simp [metricItemErrors, metricItemOk]
      | dict hasName hasValue =>
          cases hasName <;> cases hasValue <;>
            simp [metricItemErrors, metricItemOk, ih (i + 1)]

/-- C3 counterexample: a raw record whose `metrics` field is present but an
empty list passes validation — `HTTPIngestionAdapter.validate` returns
`valid = true` with no errors, because the per-item loop is vacuous and no
emptiness check exists; the claim that such a record is rejected is false. -/
theorem empty_measurements_accepted_counterexample :
    HTTPIngestionAdapter.validate ⟨true, true, .list []⟩ =
      (⟨true, none⟩ : ValidationResult) ∧
    (MetricsPipeline.process_metrics HTTPIngestionAdapter.validate (fun _ => "k")
        (fun r => Except.ok r) (fun _ _ => Except.ok true) 3
        (⟨300, 1000, []⟩ : SimpleCache ValidationResult) 0
        ⟨true, true, .list []⟩).1 = true ∧
    (MetricsPipeline.process_metrics HTTPIngestionAdapter.validate (fun _ => "k")
        (fun r => Except.ok r) (fun _ _ => Except.ok true) 3
        (⟨300, 1000, []⟩ : SimpleCache ValidationResult) 0
        ⟨true, true, .list []⟩).2.2 = 1 := by
  refine ⟨by decide, by decide, by decide⟩

/-- C3 amended: validation accepts a record exactly when the required
`timestamp` and `metric_type` fields are present and `metrics` is a list all of
whose elements are dictionaries carrying `name` and `value`; the empty list
satisfies this vacuously, so a record with a present-but-empty measurements
sequence passes validation (`valid = true`) and records with zero measurements
are not kept from the storage collaborator. -/
theorem http_validate_characterization (rr : RawRecord) :
    ((HTTPIngestionAdapter.validate rr).valid = true ↔
      rr.hasTimestamp = true ∧ rr.hasMetricType = true ∧
      ∃ items, rr.metrics = .list items ∧ ∀ m ∈ items, metricItemOk m = true) ∧
    (HTTPIngestionAdapter.validate ⟨true, true, .list []⟩).valid = true := by
  refine ⟨?_, by decide⟩
  obtain ⟨ht, hmt, mf⟩ := rr
  cases ht <;> cases hmt <;> cases mf <;>
    simp [HTTPIngestionAdapter.validate, List.isEmpty_iff, metricItemErrors_eq_nil]

/-- Deleting key `a` does not affect membership of a different key `b`. -/
theorem containsKey_eraseKey_ne {v : Type} (a b : String) (h : a ≠ b) :
    ∀ l : List (String × CacheEntry v), containsKey (eraseKey l a) b = containsKey l b := by
  intro l
  induction l with
  | nil => rfl
  | cons p rest ih =>
      by_cases hk : p.1 = a
      · simp [eraseKey, containsKey, hk, h]
      · simp [eraseKey, containsKey, hk, ih]

/-- Deleting any key preserves absence. -/
theorem containsKey_eraseKey_false {v : Type} (a b : String) :
    ∀ l : List (String × CacheEntry v),
      containsKey l b = false → containsKey (eraseKey l a) b = false := by
  intro l
  induction l with
  | nil => intro _; rfl
  | cons p rest ih =>
      intro hb
      simp [containsKey] at hb
      by_cases hk : p.1 = a
      · simp [eraseKey, hk, hb.2]
      · simp [eraseKey, containsKey, hk, hb.1, ih hb.2]

/-- Binding key `a` does not affect membership of a different key `b`. -/
theorem containsKey_setKey_ne {v : Type} (a b : String) (e : CacheEntry v) (h : a ≠ b) :
    ∀ l : List (String × CacheEntry v), containsKey (setKey l a e) b = containsKey l b := by
  intro l
  induction l with
  | nil => simp [setKey, containsKey, h]
  | cons p rest ih =>
      by_cases hk : p.1 = a
      · simp [setKey, containsKey, hk, h]
      · simp [setKey, containsKey, hk, ih]

/-- After binding key `a`, looking `a` up returns the new entry. -/
theorem lookupKey_setKey_self {v : Type} (a : String) (e : CacheEntry v) :
    ∀ l : List (String × CacheEntry v), lookupKey (setKey l a e) a = some e := by
  intro l
  induction l with
  | nil => simp [setKey, lookupKey]
  | cons p rest ih =>
      by_cases hk : p.1 = a
      · simp [setKey, lookupKey, hk]
      · simp [setKey, lookupKey, hk, ih]

/-- Binding key `a` does not affect the lookup of a different key `b`. -/
theorem lookupKey_setKey_ne {v : Type} (a b : String) (e : CacheEntry v) (h : b ≠ a) :
    ∀ l : List (String × CacheEntry v), lookupKey (setKey l a e) b = lookupKey l b := by
  intro l
  induction l with
  | nil => simp [setKey, lookupKey, Ne.symm h]
  | cons p rest ih =>
      by_cases hk : p.1 = a
      · simp [setKey, lookupKey, hk, Ne.symm h]
      · simp [setKey, lookupKey, hk, ih]

/-- Deleting a present key shrinks the list by exactly one. -/
theorem eraseKey_length_of_mem {v : Type} (a : String) :
    ∀ l : List (String × CacheEntry v),
      containsKey l a = true → (eraseKey l a).length + 1 = l.length := by
  intro l
  induction l with
  | nil => intro h; simp [containsKey] at h
  | cons p rest ih =>
      intro h
      by_cases hk : p.1 = a
      · simp [eraseKey, hk]
      · simp [containsKey, hk] at h
        simp [eraseKey, hk, ih h]

/-- Overwriting a present key keeps the length. -/
theorem setKey_length_of_mem {v : Type} (a : String) (e : CacheEntry v) :
    ∀ l : List (String × CacheEntry v),
      containsKey l a = true → (setKey l a e).length = l.length := by
  intro l
  induction l with
  | nil => intro h; simp [containsKey] at h
  | cons p rest ih =>
      intro h
      by_cases hk : p.1 = a
      · simp [setKey, hk]
      · simp [containsKey, hk] at h
        simp [setKey, hk, ih h]

/-- Binding a fresh key appends: the length grows by one. -/
theorem setKey_length_of_not_mem {v : Type} (a : String) (e : CacheEntry v) :
    ∀ l : List (String × CacheEntry v),
      containsKey l a = false → (setKey l a e).length = l.length + 1 := by
  intro l
  induction l with
  | nil => intro _; simp [setKey]
  | cons p rest ih =>
      intro h
      simp [containsKey] at h
      simp [setKey, h.1, ih h.2]

/-- `minExpiryEntry` finds nothing only on the empty dict. -/
theorem minExpiryEntry_eq_none {v : Type} :
    ∀ l : List (String × CacheEntry v), minExpiryEntry l = none ↔ l = [] := by
  intro l
  cases l with
  | nil => simp [minExpiryEntry]
  | cons p rest =>
      simp only [minExpiryEntry]
      cases minExpiryEntry rest with
      | none => simp
      | some q =>
          obtain ⟨k0, x0⟩ := q
          by_cases hle : p.2.expiry ≤ x0 <;> simp [hle]

/-- What `minExpiryEntry` returns is a present key whose expiry is a lower
bound for the whole dict, attained by one of its entries. -/
theorem minExpiryEntry_spec {v : Type} :
    ∀ (l : List (String × CacheEntry v)) (k : String) (x : Int),
      minExpiryEntry l = some (k, x) →
      containsKey l k = true ∧ (∀ p ∈ l, x ≤ p.2.expiry) ∧
        ∃ p ∈ l, p.1 = k ∧ p.2.expiry = x := by
  intro l
  induction l with
  | nil => intro k x h; simp [minExpiryEntry] at h
  | cons p rest ih =>
      intro k x h
      simp only [minExpiryEntry] at h
      cases hm : minExpiryEntry rest with
      | none =>
          rw [hm] at h
          have h2 : some (p.1, p.2.expiry) = some (k, x) := h
          have hrest : rest = [] := (minExpiryEntry_eq_none rest).1 hm
          simp at h2
          subst hrest
          refine ⟨by simp [containsKey, h2.1], ?_, ?_⟩
          · intro q hq
            simp at hq
            subst hq
            omega
          · exact ⟨p, by simp, h2.1, h2.2⟩
      | some q =>
          obtain ⟨k0, x0⟩ := q
          rw [hm] at h
          have h2 : (if p.2.expiry ≤ x0 then some (p.1, p.2.expiry)
              else some (k0, x0)) = some (k, x) := h
          obtain ⟨ihc, ihb, ihw⟩ := ih k0 x0 hm
          by_cases hle : p.2.expiry ≤ x0
          · rw [if_pos hle] at h2
            simp at h2
            refine ⟨by simp [containsKey, h2.1], ?_, ?_⟩
            · intro q hq
              simp at hq
              rcases hq with hq | hq
              · subst hq; omega
              · have := ihb q hq; omega
            · exact ⟨p, by simp, h2.1, h2.2⟩
          · rw [if_neg hle] at h2
            simp at h2
            obtain ⟨hk, hx⟩ := h2
            subst hk; subst hx
            refine ⟨?_, ?_, ?_⟩
            · by_cases hpk : p.1 = k0
              · simp [containsKey, hpk]
              · simp [containsKey, hpk, ihc]
            · intro q hq
              simp at hq
              rcases hq with hq | hq
              · subst hq; omega
              · exact ihb q hq
            · obtain ⟨w, hw1, hw2⟩ := ihw
              exact ⟨w, by simp [hw1], hw2⟩

/-- Inserting a fresh key into a cache at capacity keeps the size at
`max_size`: one entry is evicted, one appended. -/
theorem set_length_at_capacity {v : Type} (c : SimpleCache v) (k : String) (val : v)
    (ttl : Option Int) (now : Int) (hlen : c.cache.length = c.max_size)
    (hpos : 0 < c.max_size) (hfresh : containsKey c.cache k = false) :
    (c.set k val ttl now).cache.length = c.max_size := by
  have hcond : c.max_size ≤ c.cache.length ∧ containsKey c.cache k = false :=
    ⟨le_of_eq hlen.symm, hfresh⟩
  have hne : c.cache ≠ [] := by
    intro h0
    rw [h0] at hlen
    simp at hlen
    omega
  obtain ⟨q, hq⟩ : ∃ q, minExpiryEntry c.cache = some q := by
    cases hmq : minExpiryEntry c.cache with
    | none => exact absurd ((minExpiryEntry_eq_none c.cache).1 hmq) hne
    | some q => exact ⟨q, rfl⟩
  obtain ⟨ek, ex⟩ := q
  obtain ⟨hmem, _, _⟩ := minExpiryEntry_spec c.cache ek ex hq
  have hekk : ek ≠ k := by
    intro h0
    rw [h0] at hmem
    rw [hmem] at hfresh
    exact absurd hfresh (by simp)
  have herase := eraseKey_length_of_mem ek c.cache hmem
  have hfresh2 : containsKey (eraseKey c.cache ek) k = false :=
    containsKey_eraseKey_false ek k c.cache hfresh
  have hset := setKey_length_of_not_mem k (⟨val, now + ttl.getD c.ttl⟩ : CacheEntry v)
    (eraseKey c.cache ek) hfresh2
  simp only [SimpleCache.set, hcond, if_pos, hq]
  simp [hset]
  omega

/-- Inserting a fresh key into a cache below capacity appends: no eviction,
size grows by one. -/
theorem set_length_below_capacity {v : Type} (c : SimpleCache v) (k : String) (val : v)
    (ttl : Option Int) (now : Int) (hlt : c.cache.length < c.max_size)
    (hfresh : containsKey c.cache k = false) :
    (c.set k val ttl now).cache.length = c.cache.length + 1 := by
  have hcond : ¬(c.max_size ≤ c.cache.length ∧ containsKey c.cache k = false) := by
    intro h0
    omega
  simp only [SimpleCache.set, hcond, if_false]
  exact setKey_length_of_not_mem k _ c.cache hfresh

/-- Overwriting a present key never changes the size (and never evicts). -/
theorem set_length_of_mem {v : Type} (c : SimpleCache v) (k : String) (val : v)
    (ttl : Option Int) (now : Int) (hmem : containsKey c.cache k = true) :
    (c.set k val ttl now).cache = setKey c.cache k ⟨val, now + ttl.getD c.ttl⟩ ∧
    (c.set k val ttl now).cache.length = c.cache.length := by
  have hcond : ¬(c.max_size ≤ c.cache.length ∧ containsKey c.cache k = false) := by
    intro h0
    rw [hmem] at h0
    exact absurd h0.2 (by simp)
  constructor
  · simp only [SimpleCache.set, hcond, if_false]
  · simp only [SimpleCache.set, hcond, if_false]
    exact setKey_length_of_mem k _ c.cache hmem

/-- A key absent from the cache and different from the inserted one is still
absent after `set` (eviction only removes, insertion only adds `k`). -/
theorem containsKey_set_false {v : Type} (c : SimpleCache v) (k : String) (val : v)
    (ttl : Option Int) (now : Int) (b : String) (hb : containsKey c.cache b = false)
    (hne : k ≠ b) : containsKey (c.set k val ttl now).cache b = false := by
  by_cases hcond : c.max_size ≤ c.cache.length ∧ containsKey c.cache k = false
  · simp only [SimpleCache.set, hcond, if_pos]
    cases hmq : minExpiryEntry c.cache with
    | none =>
        rw [containsKey_setKey_ne k b _ hne]
        exact hb
    | some q =>
        obtain ⟨ek, ex⟩ := q
        rw [containsKey_setKey_ne k b _ hne]
        exact containsKey_eraseKey_false ek b c.cache hb
  · simp only [SimpleCache.set, hcond, if_false]
    rw [containsKey_setKey_ne k b _ hne]
    exact hb

/-- `set` only rewrites the `cache` dict: configuration fields are kept. -/
theorem set_max_size {v : Type} (c : SimpleCache v) (k : String) (val : v)
    (ttl : Option Int) (now : Int) :
    (c.set k val ttl now).max_size = c.max_size := by
  by_cases hcond : c.max_size ≤ c.cache.length ∧ containsKey c.cache k = false
  · simp only [SimpleCache.set, hcond, if_pos]
    cases hmq : minExpiryEntry c.cache with
    | none => rfl
    | some q => obtain ⟨ek, ex⟩ := q; rfl
  · simp only [SimpleCache.set, hcond, if_false]

/-- Sequentially `set` every key/value pair of a list into the cache (the
fold performed when a stream of distinct fingerprints is cached). -/
def insert_all {v : Type} (now : Int) : List (String × v) → SimpleCache v → SimpleCache v
  | [], c => c
  | kv :: rest, c => insert_all now rest (c.set kv.1 kv.2 none now)

/-- Size evolution of `insert_all` under distinct fresh keys: the cache grows
one per insert until it hits capacity and stays there. -/
theorem insert_all_length {v : Type} (now : Int) :
    ∀ (kvs : List (String × v)) (c : SimpleCache v),
      (kvs.map Prod.fst).Nodup →
      (∀ k ∈ kvs.map Prod.fst, containsKey c.cache k = false) →
      c.cache.length ≤ c.max_size → 0 < c.max_size →
      (insert_all now kvs c).cache.length =
        min (c.cache.length + kvs.length) c.max_size := by
  intro kvs
  induction kvs with
  | nil =>
      intro c _ _ hle _
      simp [insert_all]
      omega
  | cons kv rest ih =>
      intro c hnd hfresh hle hpos
      have hk : containsKey c.cache kv.1 = false := hfresh kv.1 (by simp)
      have hnd2 : (rest.map Prod.fst).Nodup := by
        simp at hnd
        exact hnd.2
      have hne : ∀ k2 ∈ rest.map Prod.fst, kv.1 ≠ k2 := by
        intro k2 hk2
        simp at hnd
        intro h0
        exact absurd (h0 ▸ hk2) (by simpa using hnd.1)
      have hfresh2 : ∀ k2 ∈ rest.map Prod.fst,
          containsKey (c.set kv.1 kv.2 none now).cache k2 = false := by
        intro k2 hk2
        exact containsKey_set_false c kv.1 kv.2 none now k2
          (hfresh k2 (by simp [hk2])) (hne k2 hk2)
      have hms := set_max_size c kv.1 kv.2 none now
      by_cases hfull : c.max_size ≤ c.cache.length
      · have hlen : c.cache.length = c.max_size := le_antisymm hle hfull
        have hstep := set_length_at_capacity c kv.1 kv.2 none now hlen hpos hk
        have := ih (c.set kv.1 kv.2 none now) hnd2 hfresh2 (by omega) (by omega)
        rw [hstep, hms] at this
        simp only [insert_all]
        rw [this]
        simp only [List.length_cons]
        omega
      · have hstep := set_length_below_capacity c kv.1 kv.2 none now (by omega) hk
        have := ih (c.set kv.1 kv.2 none now) hnd2 hfresh2 (by omega) (by omega)
        rw [hstep, hms] at this
        simp only [insert_all]
        rw [this]
        simp only [List.length_cons]
        omega

/-- C9: for a cache holding exactly `max_size` entries (`max_size > 0` — on a
zero-capacity cache Python's `min` over an empty dict would raise), `set` with
a new key first evicts exactly the entry returned by `minExpiryEntry` — a
present entry whose expiry is earliest — then inserts, leaving exactly
`max_size` keys; `set` with a present key overwrites in place, never evicts,
and leaves every other entry's lookup unchanged; and inserting `M + 1`
distinct keys into an empty capacity-`M` cache leaves exactly `M` keys. -/
theorem simplecache_eviction_contract :
    (∀ (v : Type) (c : SimpleCache v) (key : String) (val : v) (ttl : Option Int)
        (now : Int),
      c.cache.length = c.max_size → 0 < c.max_size → containsKey c.cache key = false →
      ∃ ek ex, minExpiryEntry c.cache = some (ek, ex) ∧
        containsKey c.cache ek = true ∧
        (∀ p ∈ c.cache, ex ≤ p.2.expiry) ∧
        (∃ p ∈ c.cache, p.1 = ek ∧ p.2.expiry = ex) ∧
        (c.set key val ttl now).cache =
          setKey (eraseKey c.cache ek) key ⟨val, now + ttl.getD c.ttl⟩ ∧
        (c.set key val ttl now).cache.length = c.max_size ∧
        lookupKey (c.set key val ttl now).cache key =
          some ⟨val, now + ttl.getD c.ttl⟩) ∧
    (∀ (v : Type) (c : SimpleCache v) (key : String) (val : v) (ttl : Option Int)
        (now : Int),
      containsKey c.cache key = true →
      (c.set key val ttl now).cache = setKey c.cache key ⟨val, now + ttl.getD c.ttl⟩ ∧
      (c.set key val ttl now).cache.length = c.cache.length ∧
      ∀ k2, k2 ≠ key →
        lookupKey (c.set key val ttl now).cache k2 = lookupKey c.cache k2) ∧
    (∀ (v : Type) (now ttl0 : Int) (M : Nat) (kvs : List (String × v)),
      (kvs.map Prod.fst).Nodup → kvs.length = M + 1 → 0 < M →
      (insert_all now kvs (⟨ttl0, M, []⟩ : SimpleCache v)).cache.length = M) := by
  refine ⟨?_, ?_, ?_⟩
  · intro v c key val ttl now hlen hpos hfresh
    have hcond : c.max_size ≤ c.cache.length ∧ containsKey c.cache key = false :=
      ⟨le_of_eq hlen.symm, hfresh⟩
    have hne : c.cache ≠ [] := by
      intro h0
      rw [h0] at hlen
      simp at hlen
      omega
    obtain ⟨q, hq⟩ : ∃ q, minExpiryEntry c.cache = some q := by
      cases hmq : minExpiryEntry c.cache with
      | none => exact absurd ((minExpiryEntry_eq_none c.cache).1 hmq) hne
      | some q => exact ⟨q, rfl⟩
    obtain ⟨ek, ex⟩ := q
    obtain ⟨hmem, hbound, hwit⟩ := minExpiryEntry_spec c.cache ek ex hq
    have hcacheeq : (c.set key val ttl now).cache =
        setKey (eraseKey c.cache ek) key ⟨val, now + ttl.getD c.ttl⟩ := by
      simp [SimpleCache.set, hq, hcond.1, hcond.2]
    refine ⟨ek, ex, hq, hmem, hbound, hwit, hcacheeq,
      set_length_at_capacity c key val ttl now hlen hpos hfresh, ?_⟩
    rw [hcacheeq]
    exact lookupKey_setKey_self key _ (eraseKey c.cache ek)
  · intro v c key val ttl now hmem
    obtain ⟨hceq, hlen2⟩ := set_length_of_mem c key val ttl now hmem
    refine ⟨hceq, hlen2, ?_⟩
    intro k2 hk2
    rw [hceq]
    exact lookupKey_setKey_ne key k2 _ hk2 c.cache
  · intro v now ttl0 M kvs hnd hlen hpos
    have hall := insert_all_length now kvs ⟨ttl0, M, []⟩ hnd (fun k _ => rfl)
      (by simp) hpos
    simp only [List.length_nil] at hall
    rw [hlen] at hall
    rw [hall]
    omega

/-- Witness for `simplecache_eviction_contract`: a capacity-2 cache at
capacity keeps size 2 after inserting a third key; overwriting a present key
keeps size 2; and three distinct keys into an empty capacity-2 cache leave
exactly 2 entries. -/
theorem simplecache_eviction_contract_witness :
    (SimpleCache.set (⟨100, 2, [("a", ⟨1, 50⟩), ("b", ⟨2, 30⟩)]⟩ : SimpleCache Nat)
        "c" 7 none 0).cache.length = 2 ∧
    (SimpleCache.set (⟨100, 2, [("a", ⟨1, 50⟩), ("b", ⟨2, 30⟩)]⟩ : SimpleCache Nat)
        "a" 9 none 0).cache.length = 2 ∧
    (insert_all 0 [("k1", 1), ("k2", 2), ("k3", 3)]
        (⟨100, 2, []⟩ : SimpleCache Nat)).cache.length = 2 := by
  refine ⟨?_, ?_, ?_⟩
  · obtain ⟨ek, ex, h1, h2, h3, h4, h5, h6, h7⟩ :=
      simplecache_eviction_contract.1 Nat ⟨100, 2, [("a", ⟨1, 50⟩), ("b", ⟨2, 30⟩)]⟩
        "c" 7 none 0 rfl (by decide) (by decide)
    exact h6
  · exact (simplecache_eviction_contract.2.1 Nat
      ⟨100, 2, [("a", ⟨1, 50⟩), ("b", ⟨2, 30⟩)]⟩ "a" 9 none 0 (by decide)).2.1
  · exact simplecache_eviction_contract.2.2 Nat 0 100 2
      [("k1", 1), ("k2", 2), ("k3", 3)] (by decide) rfl (by decide)
